import Mathlib

/-!
# Verification of the MSPP web-backend analytical pipeline

Shallow embedding of the sample-pairing and organism-normalized ratio
calculation pipeline of `src/programs/mspp_web/backend/logic.py` and
`src/programs/mspp_web/backend/app.py` (class `DataProcessor`), together
with proofs about the spec's claims.

Modelling conventions:
* pandas `DataFrame`s become `List Row`, where a `Row` carries the fields
  the pipeline reads: source file, organism label, protein identifier,
  and the (possibly missing) value of the file's designated intensity
  column.  Intensities are embedded as exact rationals; `log2` becomes
  `Real.logb 2` on the exact quotient, so floating-point rounding is not
  modelled and every computed ratio is a genuine (finite) real number.
* The processor state `file_to_raw_column` is a parameter
  `rawCol : String → Option String`; the presence of a protein-identifier
  column in the concatenated table is a parameter `protCol : Bool`.
* pandas `Index.intersection` (used with its default `sort=None` on string
  indexes) is embedded as the sorted deduplicated intersection, and
  `.set_index`/`.loc` row alignment is embedded as first-match lookup per
  identifier (the behaviour of `.loc` on a unique index).
* `raise ValueError(msg)` becomes `Except.error msg`; returning `None`
  becomes `Option.none`.
-/

/-- Substring test used to embed `str.contains` / `re.search` on literal
alternations: does `pat` occur as a prefix of `l`? -/
def startsWithChars : List Char → List Char → Bool
  | _, [] => true
  | [], _ :: _ => false
  | c :: cs, p :: ps => c = p && startsWithChars cs ps

/-- Does `pat` occur as a contiguous substring of `l`? -/
def hasSubChars : List Char → List Char → Bool
  | [], pat => pat.isEmpty
  | c :: t, pat => startsWithChars (c :: t) pat || hasSubChars t pat

/-- `containsStr hay pat` = does `hay` contain `pat` as a substring
(embeds Python's `pat in hay` / `Series.str.contains` with a literal
alternation pattern). -/
def containsStr (hay pat : String) : Bool :=
  hasSubChars hay.toList pat.toList

/-- `str.upper()` (ASCII, as in the identifiers and filenames consumed). -/
def strUpper (s : String) : String :=
  String.mk (s.toList.map Char.toUpper)

/-- Lexicographic order on character lists: the order Python's `sorted`
uses on strings (code-point comparison). -/
def charListLe : List Char → List Char → Bool
  | [], _ => true
  | _ :: _, [] => false
  | a :: as, b :: bs =>
    if a < b then true
    else if b < a then false
    else charListLe as bs

/-- Python's string comparison, as an executable Boolean. -/
def strLe (a b : String) : Bool :=
  charListLe a.toList b.toList

/-- `DataProcessor.ORGANISMS` (logic.py line 32 / app.py line 37). -/
def ORGANISMS : List String := ["HeLa", "E.coli", "Yeast"]

/-- `DataProcessor.ORGANISM_PATTERNS` (logic.py lines 33-40), in dict
insertion order (the order `identify_organism_vectorized` iterates in). -/
def ORGANISM_PATTERNS : List (String × List String) :=
  [("HeLa", ["_HUMAN", "HOMO_SAPIENS"]),
   ("E.coli", ["_ECOLI", "_ECOL", "_ECO2", "_ECO5", "_ECO7",
               "_SHIF", "_SHIB", "_SHIS", "ESCHERICHIA"]),
   ("Yeast", ["_YEAST", "SACCHAROMYCES", "CEREVISIAE"])]

/-- Per-element semantics of `DataProcessor.identify_organism_vectorized`
(logic.py lines 47-54): missing values become `""` (`fillna("")`), the
string is upper-cased, and for each pattern group in turn the label is
overwritten wherever some pattern of the group occurs as a substring
(`result = result.where(~mask, organism)`); elements matching no group
keep the initial label `"Unknown"`. -/
def identify_organism (v : Option String) : String :=
  let upper := strUpper (v.getD "")
  ORGANISM_PATTERNS.foldl
    (fun acc op => if op.2.any (fun p => containsStr upper p) then op.1 else acc)
    "Unknown"

/-- The organism classifier as the spec's words describe it: the label of
the FIRST pattern group (HeLa, then E.coli, then Yeast) containing a
case-insensitive substring match, `"Unknown"` if none matches.  Written
from the spec, for comparison with `identify_organism`. -/
def organismLabelFirstOfGroups (v : Option String) : String :=
  let upper := strUpper (v.getD "")
  if ["_HUMAN", "HOMO_SAPIENS"].any (fun p => containsStr upper p) then "HeLa"
  else if ["_ECOLI", "_ECOL", "_ECO2", "_ECO5", "_ECO7",
           "_SHIF", "_SHIB", "_SHIS", "ESCHERICHIA"].any
            (fun p => containsStr upper p) then "E.coli"
  else if ["_YEAST", "SACCHAROMYCES", "CEREVISIAE"].any
            (fun p => containsStr upper p) then "Yeast"
  else "Unknown"

/-- The organism classifier with the priority order the code actually
implements: since each pass overwrites the labels of earlier passes, the
LAST matching group (Yeast, then E.coli, then HeLa) wins. -/
def organismLabelLastOfGroups (v : Option String) : String :=
  let upper := strUpper (v.getD "")
  if ["_YEAST", "SACCHAROMYCES", "CEREVISIAE"].any
       (fun p => containsStr upper p) then "Yeast"
  else if ["_ECOLI", "_ECOL", "_ECO2", "_ECO5", "_ECO7",
           "_SHIF", "_SHIB", "_SHIS", "ESCHERICHIA"].any
            (fun p => containsStr upper p) then "E.coli"
  else if ["_HUMAN", "HOMO_SAPIENS"].any (fun p => containsStr upper p) then "HeLa"
  else "Unknown"

/-- One row of the concatenated table produced by `load_data`: the fields
the pipeline reads downstream. `intensity` is the row's value in its
file's designated `.raw` intensity column (`none` = NaN). -/
structure Row where
  sourceFile : String
  organism : String
  protId : String
  intensity : Option ℚ
deriving DecidableEq, Repr

/-- `data[data["Source_File"] == f][... "Organism"] == org]`: the rows of
sample `f` belonging to `org` (logic.py lines 111-115). -/
def orgRows (data : List Row) (f org : String) : List Row :=
  (data.filter (fun r => r.sourceFile = f)).filter (fun r => r.organism = org)

/-- `notna() & (> 0)`: a recorded, strictly positive intensity
(logic.py lines 123-124). -/
def validIntensity (r : Row) : Bool :=
  match r.intensity with
  | some q => decide (0 < q)
  | none => false

/-- The rows of sample `f`, organism `org`, with valid intensity
(`e25_v` / `e100_v`, logic.py lines 123-124). -/
def validRows (data : List Row) (f org : String) : List Row :=
  (orgRows data f org).filter validIntensity

/-- `set(e25_v[prot_col]) & set(e100_v[prot_col])` (logic.py line 126):
protein identifiers valid in both samples, as a list with multiplicity
from the low sample (only membership and emptiness are consumed). -/
def sharedProteins (data : List Row) (lo hi org : String) : List String :=
  ((validRows data lo org).map (fun r => r.protId)).filter
    (fun p => ((validRows data hi org).map (fun r => r.protId)).contains p)

/-- `e25_c.index.intersection(e100_c.index)` (logic.py line 132): pandas
`Index.intersection` with the default `sort=None` returns the common
identifiers sorted and without duplicates. -/
def sortedConsensus (data : List Row) (lo hi org : String) : List String :=
  List.insertionSort (fun a b : String => strLe a b = true)
    (sharedProteins data lo hi org).dedup

/-- `rows.set_index(prot_col).loc[p, col]`: the intensity stored for
identifier `p` (first-match lookup; `.loc` on a unique index). -/
def qOf (rows : List Row) (p : String) : ℚ :=
  (((rows.find? (fun r => r.protId = p)).bind (fun r => r.intensity)).getD 0)

/-- The exact-quotient core of
`DataProcessor.calculate_intensity_ratios` (logic.py lines 103-135):
every guard of the source function, and the per-protein intensity
quotient `e25 / e100` before `np.log2` is applied. -/
def consensusQuotients (rawCol : String → Option String) (protCol : Bool)
    (data : List Row) (lo hi org : String) : Option (List ℚ) :=
  if (rawCol lo).isNone || (rawCol hi).isNone then none
  else if (orgRows data lo org).length = 0 ∨ (orgRows data hi org).length = 0 then none
  else if !protCol then none
  else if (sharedProteins data lo hi org).isEmpty then none
  else
    some ((sortedConsensus data lo hi org).map
      (fun p => qOf (validRows data lo org) p / qOf (validRows data hi org) p))

/-- `DataProcessor.calculate_intensity_ratios` (logic.py lines 103-136):
`np.log2` of each consensus quotient.  The trailing
`ratios[np.isfinite(ratios)]` filter is the identity here: consensus
intensities are strictly positive, so each quotient is a positive
rational and its real `log2` is a (finite) real number. -/
noncomputable def calculate_intensity_ratios (rawCol : String → Option String)
    (protCol : Bool) (data : List Row) (lo hi org : String) : Option (List ℝ) :=
  (consensusQuotients rawCol protCol data lo hi org).map
    (fun l => l.map (fun q : ℚ => Real.logb 2 (q : ℝ)))

/-- Exact-quotient core of `DataProcessor._calculate_intensity_ratios`
(app.py lines 135-206): identical to the logic.py version except for the
final `return valid_ratios if len(valid_ratios) > 0 else None`. -/
def app_consensusQuotients (rawCol : String → Option String) (protCol : Bool)
    (data : List Row) (lo hi org : String) : Option (List ℚ) :=
  match consensusQuotients rawCol protCol data lo hi org with
  | none => none
  | some l => if l.isEmpty then none else some l

/-- `DataProcessor._calculate_intensity_ratios` (app.py lines 135-206). -/
noncomputable def app_calculate_intensity_ratios (rawCol : String → Option String)
    (protCol : Bool) (data : List Row) (lo hi org : String) : Option (List ℝ) :=
  (app_consensusQuotients rawCol protCol data lo hi org).map
    (fun l => l.map (fun q : ℚ => Real.logb 2 (q : ℝ)))


/-! ## Loading (`load_data`, logic.py lines 56-101 / app.py lines 63-98) -/

/-- One uploaded tab-separated file, reduced to what `load_data` reads:
its stem (`Path(filepath).stem`), whether some column name contains
`.raw` (`raw_cols`), whether a protein-identifier column was found
(`prot_col`), and per data row the protein-column value (`none` = NaN)
and the designated intensity-column value (`none` = NaN). -/
structure InputFile where
  name : String
  hasRawCol : Bool
  protCol : Bool
  rows : List (Option String × Option ℚ)
deriving DecidableEq, Repr

/-- The rows one file contributes to the concatenated table in logic.py's
`load_data` (lines 87-97): tag with the source name, label the organism
(`"Unknown"` for every row when no protein column was found), then keep
only rows whose label is a recognized organism
(`df = df[df["Organism"].isin(self.ORGANISMS)]`, line 96; the
`pd.Categorical` coding with categories `ORGANISMS` likewise turns
`"Unknown"` into a missing value, which `isin` also drops). -/
def load_file (f : InputFile) : List Row :=
  (f.rows.map (fun pr =>
    { sourceFile := f.name
      organism := if f.protCol then identify_organism pr.1 else "Unknown"
      protId := pr.1.getD ""
      intensity := pr.2 : Row })).filter
    (fun r => ORGANISMS.contains r.organism)

/-- The rows one file contributes in app.py's `load_data` (lines 75-93):
same tagging, but `"Unknown"` is a legal category and no `isin` filter is
applied, so every row is kept. -/
def app_load_file (f : InputFile) : List Row :=
  f.rows.map (fun pr =>
    { sourceFile := f.name
      organism := if f.protCol then identify_organism pr.1 else "Unknown"
      protId := pr.1.getD ""
      intensity := pr.2 : Row })

/-- `DataProcessor.load_data` of logic.py (lines 56-101): fails only when
no files are given, otherwise concatenates the per-file tables. -/
def load_data (files : List InputFile) : Except String (List Row) :=
  if files.isEmpty then Except.error "No files provided"
  else Except.ok (files.flatMap load_file)

/-- `DataProcessor.load_data` of app.py (lines 63-98). -/
def app_load_data (files : List InputFile) : Except String (List Row) :=
  if files.isEmpty then Except.error "No files provided"
  else Except.ok (files.flatMap app_load_file)

/-! ## Explicit-naming pairing (logic.py lines 143-203) -/

/-- `re.search(r'E[-_]?25|Y[-_]?150', f.upper())` (logic.py line 151):
the low-dose tokens, expanded from the optional-separator regex into a
literal alternation. -/
def matchesLowDose (f : String) : Bool :=
  let u := strUpper f
  containsStr u "E25" || containsStr u "E-25" || containsStr u "E_25" ||
  containsStr u "Y150" || containsStr u "Y-150" || containsStr u "Y_150"

/-- `re.search(r'E[-_]?100|Y[-_]?75', f.upper())` (logic.py line 152):
the high-dose tokens. -/
def matchesHighDose (f : String) : Bool :=
  let u := strUpper f
  containsStr u "E100" || containsStr u "E-100" || containsStr u "E_100" ||
  containsStr u "Y75" || containsStr u "Y-75" || containsStr u "Y_75"

/-- `c` is `-` or `_` (the `[-_]` character class of `get_suffix`). -/
def isSepChar (c : Char) : Bool := c = '-' || c = '_'

/-- Match a literal digit string at the head of `l`, returning the rest. -/
def dropLit : List Char → List Char → Option (List Char)
  | [], l => some l
  | d :: ds, c :: l => if c = d then dropLit ds l else none
  | _ :: _, [] => none

/-- The dose-number alternatives following `E` or `Y` in
`(?:E[-_]?(?:25|100)|Y[-_]?(?:150|75))` (logic.py line 156). -/
def doseBodies (c : Char) : Option (List (List Char)) :=
  if c.toUpper = 'E' then some [['2', '5'], ['1', '0', '0']]
  else if c.toUpper = 'Y' then some [['1', '5', '0'], ['7', '5']]
  else none

/-- Ordered alternation over the digit bodies. -/
def tryBodies : List (List Char) → List Char → Option (List Char)
  | [], _ => none
  | b :: bs, l =>
    match dropLit b l with
    | some r => some r
    | none => tryBodies bs l

/-- Match one dose token `E[-_]?(25|100)` / `Y[-_]?(150|75)`
(case-insensitive) at the head of `l`, returning the remainder.  The
optional separator is consumed greedily; backtracking to the empty
separator cannot succeed because no digit body starts with `-` or `_`. -/
def matchDoseAt : List Char → Option (List Char)
  | [] => none
  | c :: rest =>
    match doseBodies c with
    | none => none
    | some bodies =>
      match rest with
      | [] => none
      | s :: rest2 => if isSepChar s then tryBodies bodies rest2 else tryBodies bodies rest

/-- Match the whole `get_suffix` pattern
`(?:E[-_]?(?:25|100)|Y[-_]?(?:150|75))[-_](.*)` at the head of `l`:
a dose token, a mandatory separator, then the (possibly empty) captured
suffix, which runs to the end of the name (`(.*)` is greedy). -/
def suffixAt (l : List Char) : Option (List Char) :=
  match matchDoseAt l with
  | some (s :: suffix) => if isSepChar s then some suffix else none
  | _ => none

/-- `re.search` semantics: the capture of the leftmost position at which
the whole pattern matches. -/
def findSuffixChars : List Char → Option (List Char)
  | [] => none
  | c :: rest =>
    match suffixAt (c :: rest) with
    | some suf => some suf
    | none => findSuffixChars rest

/-- `get_suffix` (logic.py lines 155-157). -/
def get_suffix (name : String) : Option String :=
  (findSuffixChars name.toList).map (fun cs => String.mk cs)

/-- `get_suffix` composed with Python truthiness: the callers test
`if suff:`, so an empty captured suffix counts as missing
(logic.py lines 160-165, 168-173). -/
def usableSuffix (name : String) : Option String :=
  match get_suffix name with
  | some s => if s.isEmpty then none else some s
  | none => none

/-- One entry of `strict_pairs_dict[suff]`: the inner dict holding the
optional `'E25'` and `'E100'` samples of one suffix group. -/
structure DoseSlot where
  low : Option String
  high : Option String
deriving DecidableEq, Repr

/-- Ordered-dict lookup for `strict_pairs_dict`. -/
def lookupSlot : List (String × DoseSlot) → String → Option DoseSlot
  | [], _ => none
  | (k, v) :: t, k' => if k = k' then some v else lookupSlot t k'

/-- Ordered-dict update for `strict_pairs_dict`: update the slot of an
existing key in place, or append a fresh key at the end (Python dict
insertion order). -/
def upsertSlot : List (String × DoseSlot) → String → (DoseSlot → DoseSlot) →
    List (String × DoseSlot)
  | [], k, f => [(k, f ⟨none, none⟩)]
  | (k', v) :: t, k, f =>
    if k' = k then (k', f v) :: t else (k', v) :: upsertSlot t k f

/-- One iteration of the low-dose classification loop
(logic.py lines 159-165): a sample with no usable suffix becomes a
singlet; a sample whose suffix group already holds an `'E25'` sample
becomes a singlet; otherwise the sample takes its group's `'E25'`
role. -/
def addLowSample (st : List (String × DoseSlot) × List String)
    (s : String) : List (String × DoseSlot) × List String :=
  match usableSuffix s with
  | none => (st.1, st.2 ++ [s])
  | some suff =>
    let cur := (lookupSlot st.1 suff).getD ⟨none, none⟩
    if cur.low.isSome then (st.1, st.2 ++ [s])
    else (upsertSlot st.1 suff (fun v => ⟨some s, v.high⟩), st.2)

/-- One iteration of the high-dose classification loop
(logic.py lines 167-173), filling the `'E100'` role. -/
def addHighSample (st : List (String × DoseSlot) × List String)
    (s : String) : List (String × DoseSlot) × List String :=
  match usableSuffix s with
  | none => (st.1, st.2 ++ [s])
  | some suff =>
    let cur := (lookupSlot st.1 suff).getD ⟨none, none⟩
    if cur.high.isSome then (st.1, st.2 ++ [s])
    else (upsertSlot st.1 suff (fun v => ⟨v.low, some s⟩), st.2)

/-- One iteration of the pair-collection loop (logic.py lines 175-178):
a complete suffix group becomes a strict pair; the occupants of an
incomplete group join the singlets. -/
def collectSlot (acc : List (String × String) × List String)
    (kv : String × DoseSlot) : List (String × String) × List String :=
  match kv.2.low, kv.2.high with
  | some a, some b => (acc.1 ++ [(a, b)], acc.2)
  | some a, none => (acc.1, acc.2 ++ [a])
  | none, some b => (acc.1, acc.2 ++ [b])
  | none, none => (acc.1, acc.2)

/-- `sorted` on strings. -/
def sortStrings (l : List String) : List String :=
  List.insertionSort (fun a b : String => strLe a b = true) l

/-- `sorted` on pairs of strings (Python tuple order = lexicographic). -/
def sortPairs (l : List (String × String)) : List (String × String) :=
  List.insertionSort
    (fun p q : String × String =>
      (p.1 = q.1 ∧ strLe p.2 q.2 = true) ∨ (p.1 ≠ q.1 ∧ strLe p.1 q.1 = true)) l

/-- `e25_exp` (logic.py lines 150-151): the samples classified into the
low-dose group. -/
def doseLowSamples (sampleFiles : List String) : List String :=
  sampleFiles.filter matchesLowDose

/-- `e100_exp` (logic.py line 152): the samples classified into the
high-dose group (the `elif` keeps low-dose matches out). -/
def doseHighSamples (sampleFiles : List String) : List String :=
  sampleFiles.filter (fun f => !matchesLowDose f && matchesHighDose f)

/-- `strict_pairs_dict` and `singlets` after the two classification loops
(logic.py lines 154-173). -/
def strictState (sampleFiles : List String) :
    List (String × DoseSlot) × List String :=
  (doseHighSamples sampleFiles).foldl addHighSample
    ((doseLowSamples sampleFiles).foldl addLowSample ([], []))

/-- `strict_pairs` and the final `singlets` after the pair-collection
loop (logic.py lines 175-178). -/
def strictCollect (sampleFiles : List String) :
    List (String × String) × List String :=
  (strictState sampleFiles).1.foldl collectSlot ([], (strictState sampleFiles).2)

/-- The pairing logic of `calculate_sample_comparison_data`
(logic.py lines 149-186), returning the sample pairs together with the
singlets list (whose length line 181 reports in the log).  When at least
one strict pair formed, the strict pairs are returned sorted; otherwise
the fallback zips the two sorted dose groups index-wise
(lines 184-186). -/
def pairSamples (sampleFiles : List String) :
    List (String × String) × List String :=
  let fin := strictCollect sampleFiles
  if fin.1.isEmpty then
    (List.zip (sortStrings (doseLowSamples sampleFiles))
      (sortStrings (doseHighSamples sampleFiles)), fin.2)
  else (sortPairs fin.1, fin.2)


/-! ## Comparison orchestration -/

/-- `sorted(data["Source_File"].unique())` (logic.py line 145 /
app.py line 226). -/
def sampleFilesOf (data : List Row) : List String :=
  sortStrings (data.map (fun r => r.sourceFile)).dedup

/-- Exact-quotient core of logic.py's
`calculate_sample_comparison_data` (lines 143-203): fail for fewer than
two samples, pair, compute per-organism ratio arrays for each pair
(dropping pairs whose ratio result is `None`), and fail when every
organism ends up with no data.  Pair labels (line 195) are
presentation-only and are not modelled. -/
def calculate_sample_comparison_dataQ (rawCol : String → Option String)
    (protCol : Bool) (data : List Row) :
    Except String (List (String × List (List ℚ))) :=
  let sampleFiles := sampleFilesOf data
  if sampleFiles.length < 2 then
    Except.error "Need at least 2 samples to create comparisons"
  else
    let samplePairs := (pairSamples sampleFiles).1
    let results := ORGANISMS.map (fun org =>
      (org, samplePairs.filterMap
        (fun ab => consensusQuotients rawCol protCol data ab.1 ab.2 org)))
    if results.all (fun x => x.2.isEmpty) then
      Except.error "No valid sample pairs found"
    else Except.ok results

/-- logic.py's `calculate_sample_comparison_data` with `np.log2` applied
to each consensus quotient, as `calculate_intensity_ratios` does. -/
noncomputable def calculate_sample_comparison_data
    (rawCol : String → Option String) (protCol : Bool) (data : List Row) :
    Except String (List (String × List (List ℝ))) :=
  (calculate_sample_comparison_dataQ rawCol protCol data).map
    (fun res => res.map
      (fun x => (x.1, x.2.map (fun l => l.map (fun q : ℚ => Real.logb 2 (q : ℝ))))))

/-! ## Median-based pairing (app.py lines 217-261) -/

/-- pandas `Series.median` on exact rationals: the middle element of the
sorted values, or the mean of the two middle elements. -/
def medianQ (l : List ℚ) : ℚ :=
  let s := List.insertionSort (fun a b : ℚ => a ≤ b) l
  let n := s.length
  if n % 2 = 1 then s.getD (n / 2) 0
  else (s.getD (n / 2 - 1) 0 + s.getD (n / 2) 0) / 2

/-- `sample_medians[source_file]` (app.py lines 232-247): the median of
the sample's recorded positive intensities, `0` when the sample has no
designated intensity column or no valid intensity. -/
def sampleMedian (rawCol : String → Option String) (data : List Row)
    (f : String) : ℚ :=
  match rawCol f with
  | none => 0
  | some _ =>
    let vals := ((data.filter (fun r => r.sourceFile = f)).filterMap
      (fun r => r.intensity)).filter (fun q => 0 < q)
    if vals.isEmpty then 0 else medianQ vals

/-- `sorted(sample_medians.keys(), key=...)` (app.py line 250): the
sample names sorted by median intensity (stable, as Python's `sorted`). -/
def appSortedSamples (rawCol : String → Option String) (data : List Row) :
    List String :=
  List.insertionSort
    (fun a b => sampleMedian rawCol data a ≤ sampleMedian rawCol data b)
    (sampleFilesOf data)

/-- `for i in range(0, len(sorted_samples) - 1): pairs.append((s[i], s[i+1]))`
(app.py lines 254-258): adjacent pairs of a list. -/
def adjacentPairs : List String → List (String × String)
  | a :: b :: t => (a, b) :: adjacentPairs (b :: t)
  | _ => []

/-- The sample pairs built by app.py's
`calculate_sample_comparison_data` (lines 226-258). -/
def appPairs (rawCol : String → Option String) (data : List Row) :
    List (String × String) :=
  adjacentPairs (appSortedSamples rawCol data)

/-- Exact-quotient core of app.py's `calculate_sample_comparison_data`
(lines 217-301): fail when no sample files are present, pair adjacent
samples in median-sorted order, fail when that yields no pair, compute
per-organism ratio arrays (dropping `None` results), and fail when every
organism ends up with no data. -/
def app_calculate_sample_comparison_dataQ (rawCol : String → Option String)
    (protCol : Bool) (data : List Row) :
    Except String (List (String × List (List ℚ))) :=
  let sampleFiles := sampleFilesOf data
  if sampleFiles.length = 0 then
    Except.error "No sample files found in data"
  else
    let samplePairs := appPairs rawCol data
    if samplePairs.length = 0 then
      Except.error "Need at least 2 samples to create comparisons"
    else
      let results := ORGANISMS.map (fun org =>
        (org, samplePairs.filterMap
          (fun ab => app_consensusQuotients rawCol protCol data ab.1 ab.2 org)))
      if results.all (fun x => x.2.isEmpty) then
        Except.error "No valid sample pairs with sufficient data found"
      else Except.ok results

/-- app.py's `calculate_sample_comparison_data` with `np.log2` applied. -/
noncomputable def app_calculate_sample_comparison_data
    (rawCol : String → Option String) (protCol : Bool) (data : List Row) :
    Except String (List (String × List (List ℝ))) :=
  (app_calculate_sample_comparison_dataQ rawCol protCol data).map
    (fun res => res.map
      (fun x => (x.1, x.2.map (fun l => l.map (fun q : ℚ => Real.logb 2 (q : ℝ))))))

/-! ## Concrete witness inputs -/

/-- C2, witness: a two-row table with one consensus HeLa protein of
intensities 2 and 1. -/
def wrows : List Row :=
  [{ sourceFile := "L", organism := "HeLa", protId := "P_HUMAN", intensity := some 2 },
   { sourceFile := "H", organism := "HeLa", protId := "P_HUMAN", intensity := some 1 }]

/-- The intensity-column map of the witness tables. -/
def wrc : String → Option String := fun _ => some "c"

/-- C6, witness: samples L and H share no HeLa protein but share an
E.coli protein; removing the HeLa rows leaves the E.coli results
unchanged. -/
def d6a : List Row :=
  [{ sourceFile := "L", organism := "HeLa", protId := "A_HUMAN", intensity := some 1 },
   { sourceFile := "H", organism := "HeLa", protId := "B_HUMAN", intensity := some 1 },
   { sourceFile := "L", organism := "E.coli", protId := "C_ECOLI", intensity := some 2 },
   { sourceFile := "H", organism := "E.coli", protId := "C_ECOLI", intensity := some 1 }]

/-- The C6 witness table without the HeLa rows. -/
def d6b : List Row :=
  [{ sourceFile := "L", organism := "E.coli", protId := "C_ECOLI", intensity := some 2 },
   { sourceFile := "H", organism := "E.coli", protId := "C_ECOLI", intensity := some 1 }]

/-- C7, witness: a one-sample table. -/
def rows7 : List Row :=
  [{ sourceFile := "A", organism := "HeLa", protId := "P_HUMAN", intensity := some 1 }]

/-- C8, counterexample input: a one-row file in which no
protein-identifier column is recognized. -/
def c8File : InputFile :=
  { name := "f1", hasRawCol := true, protCol := false,
    rows := [(some "P1_HUMAN", some 5)] }

/-- C9, witness: three samples. -/
def rows9 : List Row :=
  [{ sourceFile := "A", organism := "HeLa", protId := "P_HUMAN", intensity := some 1 },
   { sourceFile := "B", organism := "HeLa", protId := "P_HUMAN", intensity := some 2 },
   { sourceFile := "C", organism := "HeLa", protId := "P_HUMAN", intensity := some 3 }]

/-- C4, counterexample input: two samples with no dose token, each with
one positive-intensity HeLa row; medians 2 and 4. -/
def rows4 : List Row :=
  [{ sourceFile := "A", organism := "HeLa", protId := "P_HUMAN", intensity := some 2 },
   { sourceFile := "B", organism := "HeLa", protId := "P_HUMAN", intensity := some 4 }]

/-- Well-formedness of `strict_pairs_dict`: every sample stored in a
slot has that slot's key as its usable suffix, and keys are distinct
(as in a Python dict). -/
def GoodDict (dict : List (String × DoseSlot)) : Prop :=
  (∀ kv ∈ dict, ∀ s : String,
      (kv.2.low = some s ∨ kv.2.high = some s) → usableSuffix s = some kv.1) ∧
  (dict.map Prod.fst).Nodup

/-! ## Helper lemmas -/

lemma charListLe_total : ∀ x y, charListLe x y = true ∨ charListLe y x = true
  | [], _ => Or.inl rfl
  | _ :: _, [] => Or.inr rfl
  | a :: as, b :: bs => by
    rcases lt_trichotomy a b with h | h | h
    · left; simp [charListLe, h]
    · subst h
      rcases charListLe_total as bs with ih | ih
      · left; simp [charListLe, ih]
      · right; simp [charListLe, ih]
    · right; simp [charListLe, h]

lemma charListLe_trans : ∀ x y z, charListLe x y = true → charListLe y z = true →
    charListLe x z = true
  | [], _, _, _, _ => rfl
  | _ :: _, [], _, h, _ => by simp [charListLe] at h
  | _ :: _, _ :: _, [], _, h => by simp [charListLe] at h
  | a :: as, b :: bs, c :: cs, h1, h2 => by
    simp only [charListLe] at h1 h2 ⊢
    by_cases hab : a < b
    · by_cases hbc : b < c
      · simp [lt_trans hab hbc]
      · by_cases hcb : c < b
        · simp [hbc, hcb] at h2
        · have hbc2 : b = c := le_antisymm (not_lt.mp hcb) (not_lt.mp hbc)
          subst hbc2
          simp [hab]
    · by_cases hba : b < a
      · simp [hab, hba] at h1
      · have hab2 : a = b := le_antisymm (not_lt.mp hba) (not_lt.mp hab)
        subst hab2
        simp [lt_irrefl] at h1
        by_cases hac : a < c
        · simp [hac]
        · by_cases hca : c < a
          · simp [hac, hca] at h2
          · have he : a = c := le_antisymm (not_lt.mp hca) (not_lt.mp hac)
            subst he
            simp [lt_irrefl] at h2 ⊢
            exact charListLe_trans as bs cs h1 h2

lemma charListLe_antisymm : ∀ x y, charListLe x y = true → charListLe y x = true → x = y
  | [], [], _, _ => rfl
  | [], _ :: _, _, h2 => by simp [charListLe] at h2
  | _ :: _, [], h1, _ => by simp [charListLe] at h1
  | a :: as, b :: bs, h1, h2 => by
    simp only [charListLe] at h1 h2
    by_cases hab : a < b
    · simp [hab, asymm hab] at h2
    · by_cases hba : b < a
      · simp [hab, hba] at h1
      · have he : a = b := le_antisymm (not_lt.mp hba) (not_lt.mp hab)
        subst he
        simp [lt_irrefl] at h1 h2
        rw [charListLe_antisymm as bs h1 h2]

instance : IsTotal String (fun a b => strLe a b = true) :=
  ⟨fun a b => charListLe_total a.toList b.toList⟩

instance : IsTrans String (fun a b => strLe a b = true) :=
  ⟨fun a b c => charListLe_trans a.toList b.toList c.toList⟩

instance : IsAntisymm String (fun a b => strLe a b = true) :=
  ⟨fun a b h1 h2 => congrArg String.mk (charListLe_antisymm a.toList b.toList h1 h2)⟩


lemma mem_sharedProteins {data : List Row} {lo hi org p} :
    p ∈ sharedProteins data lo hi org ↔
      p ∈ (validRows data lo org).map (fun r => r.protId) ∧
      p ∈ (validRows data hi org).map (fun r => r.protId) := by
  simp [sharedProteins, List.mem_filter]

lemma mem_sortedConsensus {data : List Row} {lo hi org p} :
    p ∈ sortedConsensus data lo hi org ↔ p ∈ sharedProteins data lo hi org := by
  unfold sortedConsensus
  rw [(List.perm_insertionSort _ _).mem_iff, List.mem_dedup]

lemma validRows_valid {data : List Row} {f org r} (h : r ∈ validRows data f org) :
    validIntensity r = true :=
  (List.mem_filter.mp h).2

lemma qOf_pos {rows : List Row} (hv : ∀ r ∈ rows, validIntensity r = true)
    {p : String} (hp : p ∈ rows.map (fun r => r.protId)) : 0 < qOf rows p := by
  induction rows with
  | nil => simp at hp
  | cons r t ih =>
    by_cases hr : r.protId = p
    · have hfind : (r :: t).find? (fun r' => r'.protId = p) = some r := by
        simp [List.find?_cons, hr]
      have hvr := hv r (List.mem_cons_self r t)
      unfold qOf
      rw [hfind]
      cases hi : r.intensity with
      | none =>
        simp only [validIntensity, hi] at hvr
        exact absurd hvr (by simp)
      | some q =>
        simp only [validIntensity, hi, decide_eq_true_eq] at hvr
        show 0 < (r.intensity.getD 0)
        rw [hi]
        simpa using hvr
    · have hp' : p ∈ t.map (fun r => r.protId) := by
        rcases List.mem_map.mp hp with ⟨r', hr', he⟩
        rcases List.mem_cons.mp hr' with h1 | h1
        · exact absurd (h1 ▸ he) hr
        · exact List.mem_map.mpr ⟨r', h1, he⟩
      have hfind : (r :: t).find? (fun r' => r'.protId = p) =
          t.find? (fun r' => r'.protId = p) := by
        simp [List.find?_cons, hr]
      have := ih (fun r' hr' => hv r' (List.mem_cons_of_mem r hr')) hp'
      unfold qOf at this ⊢
      rw [hfind]
      exact this

/-- All return-`None` guards of `calculate_intensity_ratios`, shared by
the error-handling claims. -/
lemma consensusQuotients_none_cases {rawCol protCol data lo hi org}
    (h : rawCol lo = none ∨ rawCol hi = none ∨
         orgRows data lo org = [] ∨ orgRows data hi org = [] ∨
         protCol = false ∨ sharedProteins data lo hi org = []) :
    consensusQuotients rawCol protCol data lo hi org = none := by
  unfold consensusQuotients
  split_ifs with h1 h2 h3 h4
  · rfl
  · rfl
  · rfl
  · rfl
  · exfalso
    rcases h with h | h | h | h | h | h <;> simp_all

/-! ## C1: organism classifier priority -/

/-- C1, counterexample: the claim says the FIRST matching pattern group
wins (an identifier matching both a HeLa pattern and a Yeast pattern is
labeled HeLa), but `identify_organism_vectorized`'s passes overwrite
earlier labels, so `"A_HUMAN;B_YEAST"` is labeled `Yeast`, not `HeLa`. -/
theorem c1_first_group_claim_false :
    identify_organism (some "A_HUMAN;B_YEAST") = "Yeast" ∧
    organismLabelFirstOfGroups (some "A_HUMAN;B_YEAST") = "HeLa" ∧
    ("Yeast" : String) ≠ "HeLa" := by
  refine ⟨by decide, by decide, by decide⟩

/-- C1, amended: for every protein-identifier value (including a missing
one), the classifier returns the label of the LAST pattern group, in the
fixed order HeLa, E.coli, Yeast, containing a case-insensitive substring
match — i.e. priority Yeast over E.coli over HeLa — and `"Unknown"` when
no pattern matches, never an error. -/
theorem c1_last_group_wins :
    ∀ v, identify_organism v = organismLabelLastOfGroups v :=
  fun _ => rfl

/-! ## C10: every insufficiency returns None -/

/-- C10: the ratio calculator returns `None` (rather than raising)
whenever either sample has no recorded intensity column, either sample
has no rows for the organism, no protein-identifier column is present,
or the consensus set is empty. -/
theorem c10_none_on_insufficiency (rawCol : String → Option String)
    (protCol : Bool) (data : List Row) (lo hi org : String)
    (h : rawCol lo = none ∨ rawCol hi = none ∨
         orgRows data lo org = [] ∨ orgRows data hi org = [] ∨
         protCol = false ∨ sharedProteins data lo hi org = []) :
    calculate_intensity_ratios rawCol protCol data lo hi org = none := by
  rw [calculate_intensity_ratios, consensusQuotients_none_cases h]
  rfl

/-- C10, witness at a concrete input (no intensity column recorded for
the low sample). -/
theorem c10_witness :
    calculate_intensity_ratios (fun _ => none) true [] "A" "B" "HeLa" = none :=
  c10_none_on_insufficiency (fun _ => none) true [] "A" "B" "HeLa" (Or.inl rfl)

/-! ## C2: ratio array elements are exact log2 of raw intensity quotients -/

lemma consensusQuotients_some_value {rawCol protCol data lo hi org qs}
    (h : consensusQuotients rawCol protCol data lo hi org = some qs) :
    qs = (sortedConsensus data lo hi org).map
      (fun p => qOf (validRows data lo org) p / qOf (validRows data hi org) p) := by
  unfold consensusQuotients at h
  split_ifs at h with h1 h2 h3 h4
  exact (Option.some.inj h).symm

/-- C2: whenever the consensus ratio calculator returns an array, every
element is the exact base-2 logarithm of the quotient of the two raw
recorded intensities (both strictly positive, so the value is a genuine
real number — no NaN or infinity) of one consensus protein, i.e. one
identifier with valid intensity in both samples; no pseudo-count enters
the quotient. -/
theorem c2_ratios_exact (rawCol : String → Option String) (protCol : Bool)
    (data : List Row) (lo hi org : String) (rs : List ℝ)
    (h : calculate_intensity_ratios rawCol protCol data lo hi org = some rs)
    (x : ℝ) (hx : x ∈ rs) :
    ∃ p, p ∈ (validRows data lo org).map (fun r => r.protId) ∧
      p ∈ (validRows data hi org).map (fun r => r.protId) ∧
      0 < qOf (validRows data lo org) p ∧
      0 < qOf (validRows data hi org) p ∧
      x = Real.logb 2
        ((qOf (validRows data lo org) p : ℝ) / (qOf (validRows data hi org) p : ℝ)) := by
  unfold calculate_intensity_ratios at h
  rcases hq0 : consensusQuotients rawCol protCol data lo hi org with _ | qs
  · rw [hq0] at h; exact absurd h (by simp)
  rw [hq0] at h
  have hrs : rs = qs.map (fun q : ℚ => Real.logb 2 (q : ℝ)) := by
    simpa using h.symm
  have hqs := consensusQuotients_some_value hq0
  subst hqs
  rw [hrs, List.map_map] at hx
  rcases List.mem_map.mp hx with ⟨p, hp, hxval⟩
  have hshared : p ∈ sharedProteins data lo hi org := mem_sortedConsensus.mp hp
  rcases mem_sharedProteins.mp hshared with ⟨hplo, hphi⟩
  have hvlo : ∀ r ∈ validRows data lo org, validIntensity r = true :=
    fun r hr => validRows_valid hr
  have hvhi : ∀ r ∈ validRows data hi org, validIntensity r = true :=
    fun r hr => validRows_valid hr
  refine ⟨p, hplo, hphi, qOf_pos hvlo hplo, qOf_pos hvhi hphi, ?_⟩
  rw [← hxval]
  simp only [Function.comp_apply]
  push_cast
  rfl

lemma wrows_quotients :
    consensusQuotients wrc true wrows "L" "H" "HeLa" = some [2] := by
  unfold consensusQuotients
  rw [if_neg (by decide), if_neg (by decide), if_neg (by decide), if_neg (by decide)]
  rw [show sortedConsensus wrows "L" "H" "HeLa" = ["P_HUMAN"] from by decide]
  simp only [List.map_cons, List.map_nil,
    show qOf (validRows wrows "L" "HeLa") "P_HUMAN" = 2 from by decide,
    show qOf (validRows wrows "H" "HeLa") "P_HUMAN" = 1 from by decide]
  norm_num

lemma wrows_ratios :
    calculate_intensity_ratios wrc true wrows "L" "H" "HeLa" =
      some [Real.logb 2 ((2 : ℚ) : ℝ)] := by
  unfold calculate_intensity_ratios
  rw [wrows_quotients]
  rfl

theorem c2_witness :
    ∃ p, p ∈ (validRows wrows "L" "HeLa").map (fun r => r.protId) ∧
      p ∈ (validRows wrows "H" "HeLa").map (fun r => r.protId) ∧
      0 < qOf (validRows wrows "L" "HeLa") p ∧
      0 < qOf (validRows wrows "H" "HeLa") p ∧
      Real.logb 2 ((2 : ℚ) : ℝ) = Real.logb 2
        ((qOf (validRows wrows "L" "HeLa") p : ℝ) /
         (qOf (validRows wrows "H" "HeLa") p : ℝ)) :=
  c2_ratios_exact wrc true wrows "L" "H" "HeLa" _ wrows_ratios _ (by simp)

/-! ## C3: swapping low and high negates the ratio array -/

lemma sharedProteins_swap_mem {data : List Row} {lo hi org p} :
    p ∈ sharedProteins data hi lo org ↔ p ∈ sharedProteins data lo hi org := by
  rw [mem_sharedProteins, mem_sharedProteins]
  exact and_comm

lemma sortedConsensus_nodup (data : List Row) (lo hi org : String) :
    (sortedConsensus data lo hi org).Nodup :=
  ((List.perm_insertionSort _ _).nodup_iff).mpr (List.nodup_dedup _)

lemma sortedConsensus_swap (data : List Row) (lo hi org : String) :
    sortedConsensus data hi lo org = sortedConsensus data lo hi org := by
  have hperm : (sortedConsensus data hi lo org).Perm (sortedConsensus data lo hi org) :=
    (List.perm_ext_iff_of_nodup (sortedConsensus_nodup data hi lo org)
      (sortedConsensus_nodup data lo hi org)).mpr
      (fun p => by rw [mem_sortedConsensus, mem_sortedConsensus]
                   exact sharedProteins_swap_mem)
  have hs1 : List.Sorted (fun a b : String => strLe a b = true)
      (sortedConsensus data hi lo org) :=
    List.sorted_insertionSort _ _
  have hs2 : List.Sorted (fun a b : String => strLe a b = true)
      (sortedConsensus data lo hi org) :=
    List.sorted_insertionSort _ _
  exact List.eq_of_perm_of_sorted hperm hs1 hs2

lemma logb_cast_div_swap (a b : ℚ) :
    Real.logb 2 ((a / b : ℚ) : ℝ) = - Real.logb 2 ((b / a : ℚ) : ℝ) := by
  push_cast
  rw [← inv_div (b : ℝ) (a : ℝ), Real.logb_inv]

/-- C3: whenever the ratio calculator returns an array for (low, high),
swapping the two samples yields the element-wise negation of that array,
over the same sorted consensus identifier set. -/
theorem c3_swap_negates (rawCol : String → Option String) (protCol : Bool)
    (data : List Row) (lo hi org : String) (rs : List ℝ)
    (h : calculate_intensity_ratios rawCol protCol data lo hi org = some rs) :
    calculate_intensity_ratios rawCol protCol data hi lo org =
      some (rs.map (fun x => -x)) := by
  unfold calculate_intensity_ratios at h ⊢
  rcases hq0 : consensusQuotients rawCol protCol data lo hi org with _ | qs
  · rw [hq0] at h; exact absurd h (by simp)
  rw [hq0] at h
  have hrs : rs = qs.map (fun q : ℚ => Real.logb 2 (q : ℝ)) := by
    simpa using h.symm
  have hqs := consensusQuotients_some_value hq0
  -- the guards of the original call, extracted
  unfold consensusQuotients at hq0
  split_ifs at hq0 with h1 h2 h3 h4
  -- the swapped call passes the (symmetric) guards
  have g1 : ¬ (((rawCol hi).isNone || (rawCol lo).isNone) = true) := by
    rw [Bool.or_comm]; exact h1
  have g2 : ¬ ((orgRows data hi org).length = 0 ∨ (orgRows data lo org).length = 0) :=
    fun hc => h2 hc.symm
  have g4 : ¬ ((sharedProteins data hi lo org).isEmpty = true) := by
    intro hc
    apply h4
    rw [List.isEmpty_iff] at hc ⊢
    rw [List.eq_nil_iff_forall_not_mem] at hc ⊢
    exact fun p hp => hc p (sharedProteins_swap_mem.mpr hp)
  unfold consensusQuotients
  rw [if_neg g1, if_neg g2, if_neg h3, if_neg g4]
  rw [hrs, hqs, sortedConsensus_swap]
  simp only [Option.map_some', List.map_map]
  congr 1
  apply List.map_congr_left
  intro p _
  simp only [Function.comp_apply]
  exact logb_cast_div_swap _ _

/-- C3, witness: swapping the witness samples negates the single ratio. -/
theorem c3_witness :
    calculate_intensity_ratios wrc true wrows "H" "L" "HeLa" =
      some ([Real.logb 2 ((2 : ℚ) : ℝ)].map (fun x => -x)) :=
  c3_swap_negates wrc true wrows "L" "H" "HeLa" _ wrows_ratios

/-! ## C6: empty consensus gives None and leaves other organisms untouched -/

lemma orgRows_organism_filter (d : List Row) (f org : String) :
    orgRows d f org =
      (d.filter (fun r => r.organism = org)).filter (fun r => r.sourceFile = f) := by
  unfold orgRows
  rw [List.filter_filter, List.filter_filter]
  exact List.filter_congr (fun r _ => by rw [Bool.and_comm])

lemma consensusQuotients_congr {rawCol : String → Option String} {protCol : Bool}
    {lo hi org : String} {d₁ d₂ : List Row}
    (hlo : orgRows d₁ lo org = orgRows d₂ lo org)
    (hhi : orgRows d₁ hi org = orgRows d₂ hi org) :
    consensusQuotients rawCol protCol d₁ lo hi org =
      consensusQuotients rawCol protCol d₂ lo hi org := by
  unfold consensusQuotients sortedConsensus sharedProteins validRows
  rw [hlo, hhi]

/-- C6: a sample pair with an empty consensus set for an organism yields
`None` (no exception — the embedded function is total), in both backend
variants; and the ratio result of any organism depends only on that
organism's rows, so the other organisms of the pair are unaffected by
whatever made the consensus empty. -/
theorem c6_empty_consensus_isolated (rawCol : String → Option String)
    (protCol : Bool) (d₁ d₂ : List Row) (lo hi org org2 : String)
    (h1 : sharedProteins d₁ lo hi org = [])
    (h2 : d₁.filter (fun r => r.organism = org2) =
          d₂.filter (fun r => r.organism = org2)) :
    calculate_intensity_ratios rawCol protCol d₁ lo hi org = none ∧
    app_calculate_intensity_ratios rawCol protCol d₁ lo hi org = none ∧
    calculate_intensity_ratios rawCol protCol d₁ lo hi org2 =
      calculate_intensity_ratios rawCol protCol d₂ lo hi org2 ∧
    app_calculate_intensity_ratios rawCol protCol d₁ lo hi org2 =
      app_calculate_intensity_ratios rawCol protCol d₂ lo hi org2 := by
  have hn : consensusQuotients rawCol protCol d₁ lo hi org = none :=
    consensusQuotients_none_cases
      (Or.inr (Or.inr (Or.inr (Or.inr (Or.inr h1)))))
  have hcong : consensusQuotients rawCol protCol d₁ lo hi org2 =
      consensusQuotients rawCol protCol d₂ lo hi org2 :=
    consensusQuotients_congr
      (by rw [orgRows_organism_filter, orgRows_organism_filter, h2])
      (by rw [orgRows_organism_filter, orgRows_organism_filter, h2])
  refine ⟨?_, ?_, ?_, ?_⟩
  · rw [calculate_intensity_ratios, hn]; rfl
  · unfold app_calculate_intensity_ratios app_consensusQuotients
    rw [hn]
    rfl
  · unfold calculate_intensity_ratios
    rw [hcong]
  · unfold app_calculate_intensity_ratios app_consensusQuotients
    rw [hcong]

theorem c6_witness :
    calculate_intensity_ratios wrc true d6a "L" "H" "HeLa" = none ∧
    app_calculate_intensity_ratios wrc true d6a "L" "H" "HeLa" = none ∧
    calculate_intensity_ratios wrc true d6a "L" "H" "E.coli" =
      calculate_intensity_ratios wrc true d6b "L" "H" "E.coli" ∧
    app_calculate_intensity_ratios wrc true d6a "L" "H" "E.coli" =
      app_calculate_intensity_ratios wrc true d6b "L" "H" "E.coli" :=
  c6_empty_consensus_isolated wrc true d6a d6b "L" "H" "HeLa" "E.coli"
    (by decide) (by decide)

/-! ## C7: fewer than two samples fails with "not enough data" -/

lemma exceptMap_error {e a b : Type} (f : a → b) (msg : e) :
    Except.map f (Except.error msg) = Except.error msg := rfl

lemma adjacentPairs_nil : adjacentPairs [] = [] := rfl

lemma adjacentPairs_singleton (a : String) : adjacentPairs [a] = [] := rfl

lemma adjacentPairs_cons2 (a b : String) (t : List String) :
    adjacentPairs (a :: b :: t) = (a, b) :: adjacentPairs (b :: t) := rfl

/-- C7: with fewer than two distinct samples, logic.py's comparison
raises `Need at least 2 samples to create comparisons` (before building
any pair), and app.py's comparison also fails rather than returning a
result. -/
theorem c7_not_enough_data (rawCol : String → Option String) (protCol : Bool)
    (data : List Row) (h : (sampleFilesOf data).length < 2) :
    calculate_sample_comparison_data rawCol protCol data =
      Except.error "Need at least 2 samples to create comparisons" ∧
    ∀ res, app_calculate_sample_comparison_data rawCol protCol data ≠
      Except.ok res := by
  constructor
  · unfold calculate_sample_comparison_data calculate_sample_comparison_dataQ
    rw [if_pos h]
    rfl
  · intro res hok
    unfold app_calculate_sample_comparison_data app_calculate_sample_comparison_dataQ
      appPairs appSortedSamples at hok
    rcases hf : sampleFilesOf data with _ | ⟨a, t⟩
    · rw [hf] at hok
      simp at hok
      rw [exceptMap_error] at hok
      exact absurd hok (by simp)
    · rcases t with _ | ⟨b, t2⟩
      · rw [hf] at hok
        simp [adjacentPairs_singleton] at hok
        rw [exceptMap_error] at hok
        exact absurd hok (by simp)
      · rw [hf] at h
        simp at h
        omega

theorem c7_witness :
    calculate_sample_comparison_data wrc true rows7 =
      Except.error "Need at least 2 samples to create comparisons" ∧
    ∀ res, app_calculate_sample_comparison_data wrc true rows7 ≠
      Except.ok res :=
  c7_not_enough_data wrc true rows7 (by decide)

/-! ## C8: a file with no protein column -/

/-- C8, counterexample: loading such a file does not fail, but contrary
to the claim its rows do NOT remain in logic.py's loaded table — the
`isin(ORGANISMS)` filter (logic.py line 96) drops every `Unknown` row,
leaving the table empty although the file had a row. -/
theorem c8_unknown_rows_dropped :
    load_data [c8File] = Except.ok [] ∧ c8File.rows.length = 1 := by
  exact ⟨rfl, rfl⟩

/-- C8, amended: loading a file with no recognizable protein-identifier
column does not fail, and every row it contributes is labeled `Unknown`;
in the app.py variant all such rows remain in the loaded table, but the
logic.py variant then filters the `Unknown` rows out, so they do not
remain there. -/
theorem c8_amended (f : InputFile) (hp : f.protCol = false)
    (files : List InputFile) (hmem : f ∈ files) :
    load_file f = [] ∧
    (app_load_file f).length = f.rows.length ∧
    (∀ r ∈ app_load_file f, r.organism = "Unknown") ∧
    (∃ t, load_data files = Except.ok t) ∧
    (∃ t, app_load_data files = Except.ok t) := by
  have hne : files ≠ [] := List.ne_nil_of_mem hmem
  refine ⟨?_, ?_, ?_, ?_, ?_⟩
  · unfold load_file
    rw [List.filter_eq_nil_iff]
    intro r hr
    rcases List.mem_map.mp hr with ⟨pr, _, hpr⟩
    rw [← hpr]
    simp [hp, ORGANISMS]
  · unfold app_load_file
    exact List.length_map _ _
  · intro r hr
    rcases List.mem_map.mp (by exact hr) with ⟨pr, _, hpr⟩
    rw [← hpr]
    simp [hp]
  · unfold load_data
    rw [if_neg (by simpa [List.isEmpty_iff] using hne)]
    exact ⟨_, rfl⟩
  · unfold app_load_data
    rw [if_neg (by simpa [List.isEmpty_iff] using hne)]
    exact ⟨_, rfl⟩

theorem c8_witness :
    load_file c8File = [] ∧
    (app_load_file c8File).length = c8File.rows.length ∧
    (∀ r ∈ app_load_file c8File, r.organism = "Unknown") ∧
    (∃ t, load_data [c8File] = Except.ok t) ∧
    (∃ t, app_load_data [c8File] = Except.ok t) :=
  c8_amended c8File (by decide) [c8File] (by simp)

/-! ## C9: the median pairer builds n-1 overlapping adjacent pairs -/

lemma adjacentPairs_length : ∀ l : List String,
    (adjacentPairs l).length = l.length - 1
  | [] => rfl
  | [_] => rfl
  | a :: b :: t => by
    rw [adjacentPairs_cons2, List.length_cons, adjacentPairs_length (b :: t)]
    simp

lemma adjacentPairs_getElem? : ∀ (l : List String) (i : ℕ) (a b : String),
    l[i]? = some a → l[i + 1]? = some b →
    (adjacentPairs l)[i]? = some (a, b)
  | [], i, a, b, h1, _ => by simp at h1
  | [x], i, a, b, h1, h2 => by
    rcases i with _ | j
    · simp at h2
    · simp at h1
  | x :: y :: t, i, a, b, h1, h2 => by
    rcases i with _ | j
    · simp at h1 h2
      rw [adjacentPairs_cons2]
      simp [h1, h2]
    · have h1x : (y :: t)[j]? = some a := by simpa using h1
      have h2x : (y :: t)[j + 1]? = some b := by simpa using h2
      have := adjacentPairs_getElem? (y :: t) j a b h1x h2x
      rw [adjacentPairs_cons2]
      simpa using this

/-- C9: on `n ≥ 2` samples the app.py pairer produces exactly `n - 1`
pairs, the `i`-th pair being the `i`-th and `(i+1)`-th samples in
median-sorted order; hence every sample that is neither first nor last
in that order appears in two pairs — as the high member of one and the
low member of the next — so the pairs overlap. -/
theorem c9_adjacent_overlapping_pairs (rawCol : String → Option String)
    (data : List Row) (h : 2 ≤ (sampleFilesOf data).length) :
    (appSortedSamples rawCol data).length = (sampleFilesOf data).length ∧
    (appPairs rawCol data).length = (sampleFilesOf data).length - 1 ∧
    (∀ i a b, (appSortedSamples rawCol data)[i]? = some a →
      (appSortedSamples rawCol data)[i + 1]? = some b →
      (appPairs rawCol data)[i]? = some (a, b)) ∧
    (∀ i a, 0 < i → i + 1 < (appSortedSamples rawCol data).length →
      (appSortedSamples rawCol data)[i]? = some a →
      (∃ x, (appPairs rawCol data)[i - 1]? = some (x, a)) ∧
      (∃ y, (appPairs rawCol data)[i]? = some (a, y))) := by
  have hlen : (appSortedSamples rawCol data).length = (sampleFilesOf data).length :=
    (List.perm_insertionSort _ _).length_eq
  refine ⟨hlen, ?_, ?_, ?_⟩
  · unfold appPairs
    rw [adjacentPairs_length, hlen]
  · intro i a b h1 h2
    exact adjacentPairs_getElem? _ i a b h1 h2
  · intro i a hi hub ha
    have hi1 : i - 1 + 1 = i := Nat.succ_pred_eq_of_pos hi
    constructor
    · rcases hxe : (appSortedSamples rawCol data)[i - 1]? with _ | x
      · rw [List.getElem?_eq_none_iff] at hxe
        omega
      · refine ⟨x, ?_⟩
        exact adjacentPairs_getElem? _ (i - 1) x a hxe (by rw [hi1]; exact ha)
    · rcases hye : (appSortedSamples rawCol data)[i + 1]? with _ | y
      · rw [List.getElem?_eq_none_iff] at hye
        omega
      · exact ⟨y, adjacentPairs_getElem? _ i a y ha hye⟩

theorem c9_witness :
    (appPairs wrc rows9).length = (sampleFilesOf rows9).length - 1 :=
  (c9_adjacent_overlapping_pairs wrc rows9 (by decide)).2.1

/-! ## C4: no median fallback in the explicit-naming pairer -/

/-- C4, counterexample: on two token-less samples the claim predicts a
median-ordered pair (A low, B high); logic.py's pairer instead produces
no pair at all, and the comparison fails with
`No valid sample pairs found`. -/
theorem c4_no_median_fallback :
    sampleMedian wrc rows4 "A" < sampleMedian wrc rows4 "B" ∧
    matchesLowDose "A" = false ∧ matchesHighDose "A" = false ∧
    matchesLowDose "B" = false ∧ matchesHighDose "B" = false ∧
    calculate_sample_comparison_data wrc true rows4 =
      Except.error "No valid sample pairs found" := by
  refine ⟨by decide, by decide, by decide, by decide, by decide, ?_⟩
  have hq : calculate_sample_comparison_dataQ wrc true rows4 =
      Except.error "No valid sample pairs found" := by rfl
  unfold calculate_sample_comparison_data
  rw [hq]
  rfl

lemma pairSamples_no_tokens {files : List String}
    (hno : ∀ f ∈ files, matchesLowDose f = false ∧ matchesHighDose f = false) :
    pairSamples files = ([], []) := by
  have hlow : doseLowSamples files = [] := by
    rw [doseLowSamples, List.filter_eq_nil_iff]
    intro f hf
    simp [(hno f hf).1]
  have hhigh : doseHighSamples files = [] := by
    rw [doseHighSamples, List.filter_eq_nil_iff]
    intro f hf
    simp [(hno f hf).1, (hno f hf).2]
  unfold pairSamples strictCollect strictState
  rw [hlow, hhigh]
  rfl

/-- C4, amended: the explicit-naming pairer of logic.py has no
median-intensity fallback: when no sample name carries a dose token it
produces no pairs and the comparison fails with
`No valid sample pairs found`.  The median-based adjacent pairing exists
only in the app.py variant, which applies it unconditionally, computing
each sample's median over its positive intensities of ALL organisms (no
stable organism is excluded); there, for two samples, the one with the
strictly lower median is placed as the pair's low member. -/
theorem c4_amended (rawCol : String → Option String) (protCol : Bool)
    (data dataApp : List Row) (A B : String)
    (hno : ∀ f ∈ sampleFilesOf data,
      matchesLowDose f = false ∧ matchesHighDose f = false)
    (hn : 2 ≤ (sampleFilesOf data).length)
    (hAB : sampleFilesOf dataApp = [A, B])
    (hm : sampleMedian rawCol dataApp A < sampleMedian rawCol dataApp B) :
    calculate_sample_comparison_data rawCol protCol data =
      Except.error "No valid sample pairs found" ∧
    appPairs rawCol dataApp = [(A, B)] := by
  constructor
  · unfold calculate_sample_comparison_data calculate_sample_comparison_dataQ
    rw [if_neg (by omega), pairSamples_no_tokens hno]
    simp [ORGANISMS, exceptMap_error]
  · unfold appPairs appSortedSamples
    rw [hAB]
    have hle : sampleMedian rawCol dataApp A ≤ sampleMedian rawCol dataApp B :=
      le_of_lt hm
    simp only [List.insertionSort, List.orderedInsert_nil, List.orderedInsert,
      if_pos hle]
    rw [adjacentPairs_cons2, adjacentPairs_singleton]

theorem c4_witness :
    calculate_sample_comparison_data wrc true rows4 =
      Except.error "No valid sample pairs found" ∧
    appPairs wrc rows4 = [("A", "B")] :=
  c4_amended wrc true rows4 rows4 "A" "B" (by decide) (by decide) (by decide)
    (by decide)

/-! ## C5: singlet accounting in suffix-refined pairing -/

lemma lookupSlot_mem {d : List (String × DoseSlot)} {k : String} {v : DoseSlot}
    (h : lookupSlot d k = some v) : (k, v) ∈ d := by
  induction d with
  | nil => simp [lookupSlot] at h
  | cons hd t ih =>
    obtain ⟨k2, v2⟩ := hd
    simp only [lookupSlot] at h
    split_ifs at h with hk
    · cases Option.some.inj h
      subst hk
      exact List.mem_cons_self _ _
    · exact List.mem_cons_of_mem _ (ih h)

lemma lookupSlot_eq_none {d : List (String × DoseSlot)} {k : String} :
    lookupSlot d k = none ↔ k ∉ d.map Prod.fst := by
  induction d with
  | nil => simp [lookupSlot]
  | cons hd t ih =>
    obtain ⟨k2, v2⟩ := hd
    simp only [lookupSlot, List.map_cons, List.mem_cons]
    split_ifs with hk
    · subst hk; simp
    · simp only [ih]
      constructor
      · intro hn hor
        rcases hor with he | hm
        · exact hk he.symm
        · exact hn hm
      · intro hn hm
        exact hn (Or.inr hm)

lemma upsertSlot_keys (d : List (String × DoseSlot)) (k : String)
    (f : DoseSlot → DoseSlot) :
    (upsertSlot d k f).map Prod.fst =
      if k ∈ d.map Prod.fst then d.map Prod.fst else d.map Prod.fst ++ [k] := by
  induction d with
  | nil => simp [upsertSlot]
  | cons hd t ih =>
    obtain ⟨k2, v2⟩ := hd
    by_cases hk : k2 = k
    · subst hk
      simp [upsertSlot]
    · have hne : ¬ k = k2 := fun h => hk h.symm
      by_cases hm : k ∈ t.map Prod.fst
      · simp [upsertSlot, hk, ih, hm, hne]
      · simp [upsertSlot, hk, ih, hm, hne]

lemma mem_upsertSlot {d : List (String × DoseSlot)} {k : String}
    {f : DoseSlot → DoseSlot} {kv : String × DoseSlot}
    (hnd : (d.map Prod.fst).Nodup) :
    kv ∈ upsertSlot d k f ↔
      ((kv ∈ d ∧ kv.1 ≠ k) ∨
       kv = (k, f ((lookupSlot d k).getD ⟨none, none⟩))) := by
  induction d with
  | nil => simp [upsertSlot, lookupSlot]
  | cons hd t ih =>
    obtain ⟨k2, v2⟩ := hd
    simp only [List.map_cons, List.nodup_cons] at hnd
    simp only [upsertSlot, lookupSlot]
    split_ifs with hk
    · subst hk
      simp only [Option.getD_some, List.mem_cons]
      constructor
      · intro h
        rcases h with he | hm
        · exact Or.inr he
        · left
          refine ⟨Or.inr hm, ?_⟩
          intro hke
          exact hnd.1 (hke ▸ List.mem_map.mpr ⟨kv, hm, rfl⟩)
      · intro h
        rcases h with ⟨hm, hne⟩ | he
        · rcases hm with he2 | hm2
          · exact absurd (congrArg Prod.fst he2) hne
          · exact Or.inr hm2
        · exact Or.inl he
    · simp only [List.mem_cons, ih hnd.2]
      constructor
      · intro h
        rcases h with he | hrest
        · exact Or.inl ⟨Or.inl he, fun hc => hk (by rw [← hc, he])⟩
        · rcases hrest with ⟨hm, hne⟩ | he
          · exact Or.inl ⟨Or.inr hm, hne⟩
          · exact Or.inr he
      · intro h
        rcases h with ⟨hm, hne⟩ | he
        · rcases hm with he2 | hm2
          · exact Or.inl he2
          · exact Or.inr (Or.inl ⟨hm2, hne⟩)
        · exact Or.inr (Or.inr he)

lemma nodup_keys_unique {d : List (String × DoseSlot)} {k : String}
    {v v2 : DoseSlot} (hnd : (d.map Prod.fst).Nodup)
    (h1 : (k, v) ∈ d) (h2 : (k, v2) ∈ d) : v = v2 := by
  induction d with
  | nil => simp at h1
  | cons hd t ih =>
    obtain ⟨k2, w⟩ := hd
    simp only [List.map_cons, List.nodup_cons] at hnd
    rcases List.mem_cons.mp h1 with he1 | hm1 <;>
      rcases List.mem_cons.mp h2 with he2 | hm2
    · injection he1 with hk1 hv1
      injection he2 with hk2 hv2
      exact hv1.trans hv2.symm
    · injection he1 with hk1 hv1
      exfalso
      apply hnd.1
      rw [← hk1]
      exact List.mem_map.mpr ⟨(k, v2), hm2, rfl⟩
    · injection he2 with hk2 hv2
      exfalso
      apply hnd.1
      rw [← hk2]
      exact List.mem_map.mpr ⟨(k, v), hm1, rfl⟩
    · exact ih hnd.2 hm1 hm2

lemma lookupSlot_of_mem {d : List (String × DoseSlot)} {k : String} {v : DoseSlot}
    (hnd : (d.map Prod.fst).Nodup) (h : (k, v) ∈ d) :
    lookupSlot d k = some v := by
  rcases hl : lookupSlot d k with _ | v2
  · rw [lookupSlot_eq_none] at hl
    exact absurd (List.mem_map.mpr ⟨(k, v), h, rfl⟩) hl
  · exact congrArg some (nodup_keys_unique hnd (lookupSlot_mem hl) h)

lemma cur_sides {d : List (String × DoseSlot)} {suff : String} (hg : GoodDict d)
    {s2 : String}
    (hs : ((lookupSlot d suff).getD ⟨none, none⟩).low = some s2 ∨
          ((lookupSlot d suff).getD ⟨none, none⟩).high = some s2) :
    usableSuffix s2 = some suff := by
  rcases hl : lookupSlot d suff with _ | v
  · rw [hl] at hs
    simp at hs
  · rw [hl] at hs
    exact hg.1 (suff, v) (lookupSlot_mem hl) s2 hs


lemma addLowSample_singlets_mono (st : List (String × DoseSlot) × List String)
    (s : String) : ∀ x ∈ st.2, x ∈ (addLowSample st s).2 := by
  intro x hx
  rcases hus : usableSuffix s with _ | suff
  · simp only [addLowSample, hus]
    exact List.mem_append.mpr (Or.inl hx)
  · simp only [addLowSample, hus]
    split_ifs with hocc
    · exact List.mem_append.mpr (Or.inl hx)
    · exact hx

lemma addHighSample_singlets_mono (st : List (String × DoseSlot) × List String)
    (s : String) : ∀ x ∈ st.2, x ∈ (addHighSample st s).2 := by
  intro x hx
  rcases hus : usableSuffix s with _ | suff
  · simp only [addHighSample, hus]
    exact List.mem_append.mpr (Or.inl hx)
  · simp only [addHighSample, hus]
    split_ifs with hocc
    · exact List.mem_append.mpr (Or.inl hx)
    · exact hx

lemma addLowSample_good (st : List (String × DoseSlot) × List String)
    (s : String) (hg : GoodDict st.1) : GoodDict (addLowSample st s).1 := by
  rcases hus : usableSuffix s with _ | suff
  · simpa only [addLowSample, hus] using hg
  · simp only [addLowSample, hus]
    split_ifs with hocc
    · exact hg
    · constructor
      · intro kv hkv s2 hs2
        rw [mem_upsertSlot hg.2] at hkv
        rcases hkv with ⟨hm, _⟩ | he
        · exact hg.1 kv hm s2 hs2
        · rw [he] at hs2 ⊢
          rcases hs2 with hlow | hhigh
          · simp only at hlow
            rw [← Option.some.inj hlow]
            exact hus
          · exact cur_sides hg (Or.inr hhigh)
      · rw [upsertSlot_keys]
        split_ifs with hmem
        · exact hg.2
        · rw [List.nodup_append]
          exact ⟨hg.2, List.nodup_singleton _,
            fun x hx hx2 => hmem ((List.mem_singleton.mp hx2) ▸ hx)⟩

lemma addHighSample_good (st : List (String × DoseSlot) × List String)
    (s : String) (hg : GoodDict st.1) : GoodDict (addHighSample st s).1 := by
  rcases hus : usableSuffix s with _ | suff
  · simpa only [addHighSample, hus] using hg
  · simp only [addHighSample, hus]
    split_ifs with hocc
    · exact hg
    · constructor
      · intro kv hkv s2 hs2
        rw [mem_upsertSlot hg.2] at hkv
        rcases hkv with ⟨hm, _⟩ | he
        · exact hg.1 kv hm s2 hs2
        · rw [he] at hs2 ⊢
          rcases hs2 with hlow | hhigh
          · exact cur_sides hg (Or.inl hlow)
          · simp only at hhigh
            rw [← Option.some.inj hhigh]
            exact hus
      · rw [upsertSlot_keys]
        split_ifs with hmem
        · exact hg.2
        · rw [List.nodup_append]
          exact ⟨hg.2, List.nodup_singleton _,
            fun x hx hx2 => hmem ((List.mem_singleton.mp hx2) ▸ hx)⟩

lemma addLowSample_member_preserved
    (st : List (String × DoseSlot) × List String) (s : String)
    (hg : GoodDict st.1) :
    ∀ kv ∈ st.1, ∀ x : String,
      (kv.2.low = some x →
        ∃ v2, (kv.1, v2) ∈ (addLowSample st s).1 ∧ v2.low = some x) ∧
      (kv.2.high = some x →
        ∃ v2, (kv.1, v2) ∈ (addLowSample st s).1 ∧ v2.high = some x) := by
  intro kv hkv x
  have hkv2 : (kv.1, kv.2) ∈ st.1 := hkv
  rcases hus : usableSuffix s with _ | suff
  · simp only [addLowSample, hus]
    exact ⟨fun hl => ⟨kv.2, hkv2, hl⟩, fun hh => ⟨kv.2, hkv2, hh⟩⟩
  · simp only [addLowSample, hus]
    split_ifs with hocc
    · exact ⟨fun hl => ⟨kv.2, hkv2, hl⟩, fun hh => ⟨kv.2, hkv2, hh⟩⟩
    · by_cases hks : kv.1 = suff
      · have hlook : lookupSlot st.1 suff = some kv.2 := by
          rw [← hks]
          exact lookupSlot_of_mem hg.2 hkv2
        have hmem2 : (suff, DoseSlot.mk (some s)
            ((lookupSlot st.1 suff).getD ⟨none, none⟩).high) ∈
            upsertSlot st.1 suff (fun v => ⟨some s, v.high⟩) :=
          (mem_upsertSlot hg.2).mpr (Or.inr rfl)
        rw [hlook] at hmem2 hocc
        simp only [Option.getD_some] at hmem2 hocc
        constructor
        · intro hl
          rw [hl] at hocc
          simp at hocc
        · intro hh
          refine ⟨⟨some s, kv.2.high⟩, ?_, hh⟩
          rw [hks]
          exact hmem2
      · have hmem2 : kv ∈ upsertSlot st.1 suff (fun v => ⟨some s, v.high⟩) :=
          (mem_upsertSlot hg.2).mpr (Or.inl ⟨hkv, hks⟩)
        exact ⟨fun hl => ⟨kv.2, hmem2, hl⟩, fun hh => ⟨kv.2, hmem2, hh⟩⟩

lemma addHighSample_member_preserved
    (st : List (String × DoseSlot) × List String) (s : String)
    (hg : GoodDict st.1) :
    ∀ kv ∈ st.1, ∀ x : String,
      (kv.2.low = some x →
        ∃ v2, (kv.1, v2) ∈ (addHighSample st s).1 ∧ v2.low = some x) ∧
      (kv.2.high = some x →
        ∃ v2, (kv.1, v2) ∈ (addHighSample st s).1 ∧ v2.high = some x) := by
  intro kv hkv x
  have hkv2 : (kv.1, kv.2) ∈ st.1 := hkv
  rcases hus : usableSuffix s with _ | suff
  · simp only [addHighSample, hus]
    exact ⟨fun hl => ⟨kv.2, hkv2, hl⟩, fun hh => ⟨kv.2, hkv2, hh⟩⟩
  · simp only [addHighSample, hus]
    split_ifs with hocc
    · exact ⟨fun hl => ⟨kv.2, hkv2, hl⟩, fun hh => ⟨kv.2, hkv2, hh⟩⟩
    · by_cases hks : kv.1 = suff
      · have hlook : lookupSlot st.1 suff = some kv.2 := by
          rw [← hks]
          exact lookupSlot_of_mem hg.2 hkv2
        have hmem2 : (suff, DoseSlot.mk
            ((lookupSlot st.1 suff).getD ⟨none, none⟩).low (some s)) ∈
            upsertSlot st.1 suff (fun v => ⟨v.low, some s⟩) :=
          (mem_upsertSlot hg.2).mpr (Or.inr rfl)
        rw [hlook] at hmem2 hocc
        simp only [Option.getD_some] at hmem2 hocc
        constructor
        · intro hl
          refine ⟨⟨kv.2.low, some s⟩, ?_, hl⟩
          rw [hks]
          exact hmem2
        · intro hh
          rw [hh] at hocc
          simp at hocc
      · have hmem2 : kv ∈ upsertSlot st.1 suff (fun v => ⟨v.low, some s⟩) :=
          (mem_upsertSlot hg.2).mpr (Or.inl ⟨hkv, hks⟩)
        exact ⟨fun hl => ⟨kv.2, hmem2, hl⟩, fun hh => ⟨kv.2, hmem2, hh⟩⟩

lemma addLowSample_inserted (st : List (String × DoseSlot) × List String)
    (s : String) (hg : GoodDict st.1) :
    (∃ kv ∈ (addLowSample st s).1, kv.2.low = some s) ∨
    s ∈ (addLowSample st s).2 := by
  rcases hus : usableSuffix s with _ | suff
  · right
    simp only [addLowSample, hus]
    exact List.mem_append.mpr (Or.inr (List.mem_singleton.mpr rfl))
  · simp only [addLowSample, hus]
    split_ifs with hocc
    · right
      exact List.mem_append.mpr (Or.inr (List.mem_singleton.mpr rfl))
    · left
      exact ⟨(suff, DoseSlot.mk (some s)
          ((lookupSlot st.1 suff).getD ⟨none, none⟩).high),
        (mem_upsertSlot hg.2).mpr (Or.inr rfl), rfl⟩

lemma addHighSample_inserted (st : List (String × DoseSlot) × List String)
    (s : String) (hg : GoodDict st.1) :
    (∃ kv ∈ (addHighSample st s).1, kv.2.high = some s) ∨
    s ∈ (addHighSample st s).2 := by
  rcases hus : usableSuffix s with _ | suff
  · right
    simp only [addHighSample, hus]
    exact List.mem_append.mpr (Or.inr (List.mem_singleton.mpr rfl))
  · simp only [addHighSample, hus]
    split_ifs with hocc
    · right
      exact List.mem_append.mpr (Or.inr (List.mem_singleton.mpr rfl))
    · left
      exact ⟨(suff, DoseSlot.mk
          ((lookupSlot st.1 suff).getD ⟨none, none⟩).low (some s)),
        (mem_upsertSlot hg.2).mpr (Or.inr rfl), rfl⟩

lemma addLowSample_missing_suffix
    (st : List (String × DoseSlot) × List String) (s : String)
    (h : usableSuffix s = none) : s ∈ (addLowSample st s).2 := by
  simp only [addLowSample, h]
  exact List.mem_append.mpr (Or.inr (List.mem_singleton.mpr rfl))

lemma addHighSample_missing_suffix
    (st : List (String × DoseSlot) × List String) (s : String)
    (h : usableSuffix s = none) : s ∈ (addHighSample st s).2 := by
  simp only [addHighSample, h]
  exact List.mem_append.mpr (Or.inr (List.mem_singleton.mpr rfl))

lemma foldl_addLow_spec : ∀ (L : List String)
    (st0 : List (String × DoseSlot) × List String), GoodDict st0.1 →
    GoodDict (L.foldl addLowSample st0).1 ∧
    (∀ x ∈ st0.2, x ∈ (L.foldl addLowSample st0).2) ∧
    (∀ kv ∈ st0.1, ∀ x : String,
      (kv.2.low = some x →
        ∃ v2, (kv.1, v2) ∈ (L.foldl addLowSample st0).1 ∧ v2.low = some x) ∧
      (kv.2.high = some x →
        ∃ v2, (kv.1, v2) ∈ (L.foldl addLowSample st0).1 ∧ v2.high = some x)) ∧
    (∀ s ∈ L, (∃ kv ∈ (L.foldl addLowSample st0).1, kv.2.low = some s) ∨
      s ∈ (L.foldl addLowSample st0).2) ∧
    (∀ s ∈ L, usableSuffix s = none → s ∈ (L.foldl addLowSample st0).2)
  | [], st0, hg => by
    refine ⟨hg, fun x hx => hx, ?_, by simp, by simp⟩
    intro kv hkv x
    exact ⟨fun hl => ⟨kv.2, hkv, hl⟩, fun hh => ⟨kv.2, hkv, hh⟩⟩
  | s :: L, st0, hg => by
    have hg1 := addLowSample_good st0 s hg
    have IH := foldl_addLow_spec L (addLowSample st0 s) hg1
    rw [List.foldl_cons]
    refine ⟨IH.1, ?_, ?_, ?_, ?_⟩
    · intro x hx
      exact IH.2.1 x (addLowSample_singlets_mono st0 s x hx)
    · intro kv hkv x
      constructor
      · intro hl
        rcases (addLowSample_member_preserved st0 s hg kv hkv x).1 hl with
          ⟨v2, hv2, hv2l⟩
        exact (IH.2.2.1 (kv.1, v2) hv2 x).1 hv2l
      · intro hh
        rcases (addLowSample_member_preserved st0 s hg kv hkv x).2 hh with
          ⟨v2, hv2, hv2h⟩
        exact (IH.2.2.1 (kv.1, v2) hv2 x).2 hv2h
    · intro s2 hs2
      rcases List.mem_cons.mp hs2 with he | hm
      · subst he
        rcases addLowSample_inserted st0 s2 hg with ⟨kv, hkv, hside⟩ | hsing
        · rcases (IH.2.2.1 kv hkv s2).1 hside with ⟨v2, hv2, hv2l⟩
          exact Or.inl ⟨(kv.1, v2), hv2, hv2l⟩
        · exact Or.inr (IH.2.1 s2 hsing)
      · exact IH.2.2.2.1 s2 hm
    · intro s2 hs2 hnone
      rcases List.mem_cons.mp hs2 with he | hm
      · subst he
        exact IH.2.1 s2 (addLowSample_missing_suffix st0 s2 hnone)
      · exact IH.2.2.2.2 s2 hm hnone

lemma foldl_addHigh_spec : ∀ (L : List String)
    (st0 : List (String × DoseSlot) × List String), GoodDict st0.1 →
    GoodDict (L.foldl addHighSample st0).1 ∧
    (∀ x ∈ st0.2, x ∈ (L.foldl addHighSample st0).2) ∧
    (∀ kv ∈ st0.1, ∀ x : String,
      (kv.2.low = some x →
        ∃ v2, (kv.1, v2) ∈ (L.foldl addHighSample st0).1 ∧ v2.low = some x) ∧
      (kv.2.high = some x →
        ∃ v2, (kv.1, v2) ∈ (L.foldl addHighSample st0).1 ∧ v2.high = some x)) ∧
    (∀ s ∈ L, (∃ kv ∈ (L.foldl addHighSample st0).1, kv.2.high = some s) ∨
      s ∈ (L.foldl addHighSample st0).2) ∧
    (∀ s ∈ L, usableSuffix s = none → s ∈ (L.foldl addHighSample st0).2)
  | [], st0, hg => by
    refine ⟨hg, fun x hx => hx, ?_, by simp, by simp⟩
    intro kv hkv x
    exact ⟨fun hl => ⟨kv.2, hkv, hl⟩, fun hh => ⟨kv.2, hkv, hh⟩⟩
  | s :: L, st0, hg => by
    have hg1 := addHighSample_good st0 s hg
    have IH := foldl_addHigh_spec L (addHighSample st0 s) hg1
    rw [List.foldl_cons]
    refine ⟨IH.1, ?_, ?_, ?_, ?_⟩
    · intro x hx
      exact IH.2.1 x (addHighSample_singlets_mono st0 s x hx)
    · intro kv hkv x
      constructor
      · intro hl
        rcases (addHighSample_member_preserved st0 s hg kv hkv x).1 hl with
          ⟨v2, hv2, hv2l⟩
        exact (IH.2.2.1 (kv.1, v2) hv2 x).1 hv2l
      · intro hh
        rcases (addHighSample_member_preserved st0 s hg kv hkv x).2 hh with
          ⟨v2, hv2, hv2h⟩
        exact (IH.2.2.1 (kv.1, v2) hv2 x).2 hv2h
    · intro s2 hs2
      rcases List.mem_cons.mp hs2 with he | hm
      · subst he
        rcases addHighSample_inserted st0 s2 hg with ⟨kv, hkv, hside⟩ | hsing
        · rcases (IH.2.2.1 kv hkv s2).2 hside with ⟨v2, hv2, hv2h⟩
          exact Or.inl ⟨(kv.1, v2), hv2, hv2h⟩
        · exact Or.inr (IH.2.1 s2 hsing)
      · exact IH.2.2.2.1 s2 hm
    · intro s2 hs2 hnone
      rcases List.mem_cons.mp hs2 with he | hm
      · subst he
        exact IH.2.1 s2 (addHighSample_missing_suffix st0 s2 hnone)
      · exact IH.2.2.2.2 s2 hm hnone

lemma collectSlot_mono (acc : List (String × String) × List String)
    (kv : String × DoseSlot) :
    (∀ x ∈ acc.1, x ∈ (collectSlot acc kv).1) ∧
    (∀ x ∈ acc.2, x ∈ (collectSlot acc kv).2) := by
  unfold collectSlot
  rcases kv.2.low with _ | a <;> rcases kv.2.high with _ | b <;>
    exact ⟨fun x hx => by first
        | exact hx
        | exact List.mem_append.mpr (Or.inl hx),
      fun x hx => by first
        | exact hx
        | exact List.mem_append.mpr (Or.inl hx)⟩

lemma foldl_collect_mono : ∀ (dl : List (String × DoseSlot))
    (acc : List (String × String) × List String),
    (∀ x ∈ acc.1, x ∈ (dl.foldl collectSlot acc).1) ∧
    (∀ x ∈ acc.2, x ∈ (dl.foldl collectSlot acc).2)
  | [], acc => ⟨fun _ hx => hx, fun _ hx => hx⟩
  | kv :: dl, acc => by
    rw [List.foldl_cons]
    have hstep := collectSlot_mono acc kv
    have IH := foldl_collect_mono dl (collectSlot acc kv)
    exact ⟨fun x hx => IH.1 x (hstep.1 x hx), fun x hx => IH.2 x (hstep.2 x hx)⟩

lemma foldl_collect_complete : ∀ (dl : List (String × DoseSlot))
    (acc : List (String × String) × List String), ∀ kv ∈ dl,
    (∀ a b, kv.2.low = some a → kv.2.high = some b →
      (a, b) ∈ (dl.foldl collectSlot acc).1) ∧
    (∀ a, kv.2.low = some a → kv.2.high = none →
      a ∈ (dl.foldl collectSlot acc).2) ∧
    (∀ b, kv.2.low = none → kv.2.high = some b →
      b ∈ (dl.foldl collectSlot acc).2)
  | [], _, kv, hkv => absurd hkv (List.not_mem_nil kv)
  | kv0 :: dl, acc, kv, hkv => by
    rw [List.foldl_cons]
    rcases List.mem_cons.mp hkv with he | hm
    · subst he
      have hmono := foldl_collect_mono dl (collectSlot acc kv)
      refine ⟨?_, ?_, ?_⟩
      · intro a b hl hh
        apply hmono.1
        unfold collectSlot
        rw [hl, hh]
        exact List.mem_append.mpr (Or.inr (List.mem_singleton.mpr rfl))
      · intro a hl hh
        apply hmono.2
        unfold collectSlot
        rw [hl, hh]
        exact List.mem_append.mpr (Or.inr (List.mem_singleton.mpr rfl))
      · intro b hl hh
        apply hmono.2
        unfold collectSlot
        rw [hl, hh]
        exact List.mem_append.mpr (Or.inr (List.mem_singleton.mpr rfl))
    · exact foldl_collect_complete dl (collectSlot acc kv0) kv hm

lemma foldl_collect_pairs_sound : ∀ (dl : List (String × DoseSlot))
    (acc : List (String × String) × List String),
    ∀ pr ∈ (dl.foldl collectSlot acc).1,
    pr ∈ acc.1 ∨ ∃ kv ∈ dl, kv.2.low = some pr.1 ∧ kv.2.high = some pr.2
  | [], _, pr, hpr => Or.inl hpr
  | kv0 :: dl, acc, pr, hpr => by
    rw [List.foldl_cons] at hpr
    rcases foldl_collect_pairs_sound dl (collectSlot acc kv0) pr hpr with hacc | ⟨kv, hkv, hl, hh⟩
    · unfold collectSlot at hacc
      rcases h0l : kv0.2.low with _ | a <;> rcases h0h : kv0.2.high with _ | b <;>
        rw [h0l, h0h] at hacc
      · exact Or.inl hacc
      · exact Or.inl hacc
      · exact Or.inl hacc
      · rcases List.mem_append.mp hacc with h1 | h2
        · exact Or.inl h1
        · rw [List.mem_singleton.mp h2]
          exact Or.inr ⟨kv0, List.mem_cons_self _ _, h0l, h0h⟩
    · exact Or.inr ⟨kv, List.mem_cons_of_mem _ hkv, hl, hh⟩

lemma strictState_facts (files : List String) :
    GoodDict (strictState files).1 ∧
    (∀ s ∈ doseLowSamples files,
      (∃ kv ∈ (strictState files).1, kv.2.low = some s) ∨
      s ∈ (strictState files).2) ∧
    (∀ s ∈ doseHighSamples files,
      (∃ kv ∈ (strictState files).1, kv.2.high = some s) ∨
      s ∈ (strictState files).2) ∧
    (∀ s, (s ∈ doseLowSamples files ∨ s ∈ doseHighSamples files) →
      usableSuffix s = none → s ∈ (strictState files).2) := by
  have hg0 : GoodDict ([] : List (String × DoseSlot)) := ⟨by simp, by simp⟩
  have H1 := foldl_addLow_spec (doseLowSamples files) ([], []) hg0
  have H2 := foldl_addHigh_spec (doseHighSamples files)
    ((doseLowSamples files).foldl addLowSample ([], [])) H1.1
  refine ⟨H2.1, ?_, H2.2.2.2.1, ?_⟩
  · intro s hs
    rcases H1.2.2.2.1 s hs with ⟨kv, hkv, hlow⟩ | hsing
    · rcases (H2.2.2.1 kv hkv s).1 hlow with ⟨v2, hv2, hv2l⟩
      exact Or.inl ⟨(kv.1, v2), hv2, hv2l⟩
    · exact Or.inr (H2.2.1 s hsing)
  · intro s hs hnone
    rcases hs with hl | hh
    · exact H2.2.1 s (H1.2.2.2.2 s hl hnone)
    · exact H2.2.2.2.2 s hh hnone

lemma strict_pairs_origin (files : List String) :
    ∀ pr ∈ (strictCollect files).1,
      ∃ kv ∈ (strictState files).1,
        kv.2.low = some pr.1 ∧ kv.2.high = some pr.2 := by
  intro pr hpr
  rcases foldl_collect_pairs_sound (strictState files).1
    ([], (strictState files).2) pr hpr with h0 | h
  · simp at h0
  · exact h

lemma strict_singlets_carry (files : List String) :
    ∀ x ∈ (strictState files).2, x ∈ (strictCollect files).2 := by
  intro x hx
  exact (foldl_collect_mono (strictState files).1 ([], (strictState files).2)).2 x hx

lemma strict_slot_outcome (files : List String) :
    ∀ kv ∈ (strictState files).1,
    (∀ a b, kv.2.low = some a → kv.2.high = some b →
      (a, b) ∈ (strictCollect files).1) ∧
    (∀ a, kv.2.low = some a → kv.2.high = none →
      a ∈ (strictCollect files).2) ∧
    (∀ b, kv.2.low = none → kv.2.high = some b →
      b ∈ (strictCollect files).2) := by
  intro kv hkv
  exact foldl_collect_complete (strictState files).1
    ([], (strictState files).2) kv hkv

/-- C5, counterexample: in
`["a_E25_s1", "a_E100_s1", "plain"]` the token-less sample `"plain"` is
unpaired, yet it is neither in the output pairs nor in the singlets
list — it is silently dropped, contradicting the claim that no unpaired
sample is silently dropped. -/
theorem c5_unpaired_sample_silently_dropped :
    pairSamples ["a_E25_s1", "a_E100_s1", "plain"] =
      ([("a_E25_s1", "a_E100_s1")], []) ∧
    ("plain" : String) ∈ ["a_E25_s1", "a_E100_s1", "plain"] ∧
    "plain" ∉ (pairSamples ["a_E25_s1", "a_E100_s1", "plain"]).2 := by
  refine ⟨by decide, by decide, by decide⟩

/-- C5, amended: whenever at least one strict (suffix-matched) pair
forms, every dose-token sample with a missing suffix lands on the
singlets list and appears in no pair; every dose-token sample is either
in some pair or on the singlets list; and of two same-dose samples
sharing one suffix, at most one is ever paired (the other is a singlet
by the previous clauses).  Samples carrying no dose token are outside
this accounting (the counterexample shows they can be silently dropped),
and the singlets list itself is only logged as a count, not returned. -/
theorem c5_amended (files : List String)
    (hne : (strictCollect files).1 ≠ []) :
    (∀ s, (s ∈ doseLowSamples files ∨ s ∈ doseHighSamples files) →
      usableSuffix s = none →
      s ∈ (pairSamples files).2 ∧
      ∀ p ∈ (pairSamples files).1, p.1 ≠ s ∧ p.2 ≠ s) ∧
    (∀ s, (s ∈ doseLowSamples files ∨ s ∈ doseHighSamples files) →
      (∃ p ∈ (pairSamples files).1, p.1 = s ∨ p.2 = s) ∨
      s ∈ (pairSamples files).2) ∧
    (∀ k s s2, s ∈ doseLowSamples files → s2 ∈ doseLowSamples files →
      s ≠ s2 → usableSuffix s = some k → usableSuffix s2 = some k →
      ¬ ((∃ p ∈ (pairSamples files).1, p.1 = s) ∧
         (∃ p ∈ (pairSamples files).1, p.1 = s2))) ∧
    (∀ k s s2, s ∈ doseHighSamples files → s2 ∈ doseHighSamples files →
      s ≠ s2 → usableSuffix s = some k → usableSuffix s2 = some k →
      ¬ ((∃ p ∈ (pairSamples files).1, p.2 = s) ∧
         (∃ p ∈ (pairSamples files).1, p.2 = s2))) := by
  have hps : pairSamples files =
      (sortPairs (strictCollect files).1, (strictCollect files).2) := by
    unfold pairSamples
    rw [if_neg (by simpa [List.isEmpty_iff] using hne)]
  have hmemp : ∀ p : String × String,
      p ∈ (pairSamples files).1 ↔ p ∈ (strictCollect files).1 := by
    intro p
    rw [hps]
    exact (List.perm_insertionSort _ _).mem_iff
  have hsing : (pairSamples files).2 = (strictCollect files).2 := by
    rw [hps]
  have hSF := strictState_facts files
  refine ⟨?_, ?_, ?_, ?_⟩
  · -- missing suffix: singlet, never paired
    intro s hs hnone
    constructor
    · rw [hsing]
      exact strict_singlets_carry files s (hSF.2.2.2 s hs hnone)
    · intro p hp
      rcases strict_pairs_origin files p ((hmemp p).mp hp) with ⟨kv, hkv, hl, hh⟩
      constructor
      · intro he
        have := hSF.1.1 kv hkv s (Or.inl (he ▸ hl))
        rw [hnone] at this
        exact Option.noConfusion this
      · intro he
        have := hSF.1.1 kv hkv s (Or.inr (he ▸ hh))
        rw [hnone] at this
        exact Option.noConfusion this
  · -- partition: pair member or singlet
    intro s hs
    rcases hs with hl | hh
    · rcases hSF.2.1 s hl with ⟨kv, hkv, hlow⟩ | hsin
      · rcases hhv : kv.2.high with _ | b
        · right
          rw [hsing]
          exact (strict_slot_outcome files kv hkv).2.1 s hlow hhv
        · left
          refine ⟨(s, b), ?_, Or.inl rfl⟩
          rw [hmemp]
          exact (strict_slot_outcome files kv hkv).1 s b hlow hhv
      · right
        rw [hsing]
        exact strict_singlets_carry files s hsin
    · rcases hSF.2.2.1 s hh with ⟨kv, hkv, hhigh⟩ | hsin
      · rcases hlv : kv.2.low with _ | a
        · right
          rw [hsing]
          exact (strict_slot_outcome files kv hkv).2.2 s hlv hhigh
        · left
          refine ⟨(a, s), ?_, Or.inr rfl⟩
          rw [hmemp]
          exact (strict_slot_outcome files kv hkv).1 a s hlv hhigh
      · right
        rw [hsing]
        exact strict_singlets_carry files s hsin
  · -- at most one low sample per suffix is paired
    intro k s s2 _ _ hne2 hus hus2 ⟨⟨p, hp, hp1⟩, ⟨p2, hp2, hp21⟩⟩
    rcases strict_pairs_origin files p ((hmemp p).mp hp) with ⟨kv, hkv, hl, _⟩
    rcases strict_pairs_origin files p2 ((hmemp p2).mp hp2) with ⟨kv2, hkv2, hl2, _⟩
    rw [hp1] at hl
    rw [hp21] at hl2
    have hk1 : kv.1 = k :=
      Option.some.inj ((hSF.1.1 kv hkv s (Or.inl hl)).symm.trans hus)
    have hk2 : kv2.1 = k :=
      Option.some.inj ((hSF.1.1 kv2 hkv2 s2 (Or.inl hl2)).symm.trans hus2)
    have hm1 : (k, kv.2) ∈ (strictState files).1 := by
      rw [← hk1]
      exact hkv
    have hm2 : (k, kv2.2) ∈ (strictState files).1 := by
      rw [← hk2]
      exact hkv2
    have := nodup_keys_unique hSF.1.2 hm1 hm2
    rw [this, hl2] at hl
    exact hne2 (Option.some.inj hl).symm
  · -- at most one high sample per suffix is paired
    intro k s s2 _ _ hne2 hus hus2 ⟨⟨p, hp, hp2⟩, ⟨p2, hp2m, hp22⟩⟩
    rcases strict_pairs_origin files p ((hmemp p).mp hp) with ⟨kv, hkv, _, hh⟩
    rcases strict_pairs_origin files p2 ((hmemp p2).mp hp2m) with ⟨kv2, hkv2, _, hh2⟩
    rw [hp2] at hh
    rw [hp22] at hh2
    have hk1 : kv.1 = k :=
      Option.some.inj ((hSF.1.1 kv hkv s (Or.inr hh)).symm.trans hus)
    have hk2 : kv2.1 = k :=
      Option.some.inj ((hSF.1.1 kv2 hkv2 s2 (Or.inr hh2)).symm.trans hus2)
    have hm1 : (k, kv.2) ∈ (strictState files).1 := by
      rw [← hk1]
      exact hkv
    have hm2 : (k, kv2.2) ∈ (strictState files).1 := by
      rw [← hk2]
      exact hkv2
    have := nodup_keys_unique hSF.1.2 hm1 hm2
    rw [this, hh2] at hh
    exact hne2 (Option.some.inj hh).symm

/-- C5, witness: `"x_E25"` carries a dose token but no suffix; with one
strict pair present it is excluded from the pairs and reported in the
singlets list. -/
theorem c5_witness :
    "x_E25" ∈ (pairSamples ["a_E25_s1", "a_E100_s1", "x_E25"]).2 ∧
    ∀ p ∈ (pairSamples ["a_E25_s1", "a_E100_s1", "x_E25"]).1,
      p.1 ≠ "x_E25" ∧ p.2 ≠ "x_E25" :=
  (c5_amended ["a_E25_s1", "a_E100_s1", "x_E25"] (by decide)).1
    "x_E25" (Or.inl (by decide)) (by decide)
